import Mathlib

/-!
Verification of the OxideCMS core backend (Rust sources under
`appbase_backend/src`) against its natural-language specification.

The development is a shallow embedding:

* Rust `String` values are modelled as `List Char` (`RStr`), so that the
  string-processing routines (`trim`, `to_lowercase`, `split`) are fully
  transparent recursive functions.  ASCII lowercasing models Rust's
  `to_lowercase` (no post out of ASCII is needed by any claim).
* The redb key-value store is modelled as association lists (content and
  metadata tables, keyed by post id) and as lists of composite keys (the
  tag, keyword and chronological index tables).  redb keeps keys unique;
  insertion therefore replaces or deduplicates.  The chronological index
  is kept sorted in ascending key order because its iteration order is
  observable through `read_latest_post_summaries`; the tag and keyword
  index tables are only ever queried by membership in the claims, so they
  are kept as duplicate-free lists.
* The SQLite store is modelled as lists of typed rows.  `post_ownership`
  and `pending_post_ownership` declare `post_id` as `PRIMARY KEY`
  (`setup/db_setup.rs`), which justifies modelling `INSERT OR IGNORE` as
  insert-if-absent.
* JSON (de)serialisation of `PostMetadata` is modelled as the identity:
  tables store the structured value directly.
* Fallible multi-store operations return their error (if any) together
  with the resulting state of both stores; an aborted redb transaction
  leaves the redb state unchanged, while SQLite effects performed before
  the failure persist, exactly as in the Rust code.
* The injected failure of a redb write transaction (needed to state the
  compensation behaviour of `approve_post`) is a boolean parameter
  `redb_ok`.
-/

/-- Rust `String`/`&str`, modelled as its character list. -/
abbrev RStr := List Char

/-- Post identifiers: the 16-byte UUIDs are opaque keys; both stores use
the same identifier for a post, so a single abstract type suffices.
(`Uuid::parse_str` round-trips for every identifier the program itself
generated; the claims only concern such identifiers.) -/
abbrev PostId := Nat

/-- Whitespace test used by Rust's `str::trim` (model). -/
def isWs (c : Char) : Bool := c.isWhitespace

/-- Rust `str::trim` (model): drop leading and trailing whitespace. -/
def trimChars (s : RStr) : RStr :=
  ((s.dropWhile isWs).reverse.dropWhile isWs).reverse

/-- ASCII lowercasing of one character, modelling Rust `to_lowercase`
on the ASCII range (an explicit table keeps every proof elementary). -/
def lowerChar (c : Char) : Char :=
  if c = 'A' then 'a' else if c = 'B' then 'b' else if c = 'C' then 'c'
  else if c = 'D' then 'd' else if c = 'E' then 'e' else if c = 'F' then 'f'
  else if c = 'G' then 'g' else if c = 'H' then 'h' else if c = 'I' then 'i'
  else if c = 'J' then 'j' else if c = 'K' then 'k' else if c = 'L' then 'l'
  else if c = 'M' then 'm' else if c = 'N' then 'n' else if c = 'O' then 'o'
  else if c = 'P' then 'p' else if c = 'Q' then 'q' else if c = 'R' then 'r'
  else if c = 'S' then 's' else if c = 'T' then 't' else if c = 'U' then 'u'
  else if c = 'V' then 'v' else if c = 'W' then 'w' else if c = 'X' then 'x'
  else if c = 'Y' then 'y' else if c = 'Z' then 'z' else c

/-- Rust `str::to_lowercase` (model). -/
def lowerRStr (s : RStr) : RStr := s.map lowerChar

/-- Rust `str::split(sep)` (model): always returns at least one chunk;
`""` splits to `[""]`, matching Rust. -/
def splitOnChar (sep : Char) : RStr → List RStr
  | [] => [[]]
  | c :: cs =>
    if c = sep then [] :: splitOnChar sep cs
    else
      match splitOnChar sep cs with
      | [] => [[c]]
      | t :: ts => (c :: t) :: ts

/-- Rust `[String]::join(sep)` (model). -/
def joinWith (sep : RStr) : List RStr → RStr
  | [] => []
  | [c] => c
  | c :: cs => c ++ sep ++ joinWith sep cs

/-- `tags.join(", ")` as used throughout `posts_db_operations.rs`. -/
def join_comma_space (l : List RStr) : RStr := joinWith [',', ' '] l

/-- The token pipeline shared by `generate_all_tags` and
`process_keywords`: split on `','`, trim, lowercase, drop empties. -/
def normalize_comma_tokens (s : RStr) : List RStr :=
  ((splitOnChar ',' s).map (fun t => lowerRStr (trimChars t))).filter
    (fun t => t ≠ [])

/-- The display-tag pipeline of `create_pending_post` / `update_post` /
`update_pending_post`: split on `','`, trim (keeping case), drop empties. -/
def display_tokens (s : RStr) : List RStr :=
  ((splitOnChar ',' s).map trimChars).filter (fun t => t ≠ [])

/-- `HashSet::insert` on a list kept duplicate-free (insertion order). -/
def insertUnique [DecidableEq α] (x : α) (l : List α) : List α :=
  if x ∈ l then l else l ++ [x]

/-- The inner loop of `generate_all_tags`: walk the `'/'`-parts of one
tag, inserting each part and each growing prefix path (`current_path`).
`cur = none` models the `i = 0` state where no `'/'` is prepended. -/
def insertPartsLoop : List RStr → Option RStr → List RStr → List RStr
  | [], _, acc => acc
  | p :: ps, cur, acc =>
    let cur2 : RStr :=
      match cur with
      | none => p
      | some c => c ++ '/' :: p
    insertPartsLoop ps (some cur2) (insertUnique cur2 (insertUnique p acc))

/-- `generate_all_tags` from `posts_db_operations.rs` (lines 45–68):
normalize the comma-separated input, then for each tag insert the tag
itself and, when it has more than one `'/'`-part, every trimmed part and
every prefix path. The Rust `HashSet` is modelled as a duplicate-free
list. -/
def gen_step (acc : List RStr) (tag : RStr) : List RStr :=
  let acc1 := insertUnique tag acc
  let parts := (splitOnChar '/' tag).map trimChars
  if 1 < parts.length then insertPartsLoop parts none acc1 else acc1

def generate_all_tags (tags_str : RStr) : List RStr :=
  (normalize_comma_tokens tags_str).foldl gen_step []

/-- `process_keywords` from `posts_db_operations.rs` (lines 70–75). -/
def process_keywords (keywords_str : RStr) : List RStr :=
  normalize_comma_tokens keywords_str

/-! ## Data model (`models/mod.rs`) -/

/-- `PostMetadata` (`models/mod.rs` lines 14–23); timestamps are the Unix
seconds the code extracts via `DateTime::timestamp()`. -/
structure PostMetadata where
  title : RStr
  created_at : Int
  last_updated_at : Option Int
  summary : RStr
  tags : List RStr
  cover_image : Option RStr
  has_call_to_action : Option Bool
  search_keywords : Option (List RStr)
deriving DecidableEq

/-- `EditLogEntry` (`models/mod.rs` lines 7–11). -/
structure EditLogEntry where
  edit_number : Nat
  editor_username : RStr
  edited_at : Int
deriving DecidableEq

/-- `Contributor` (`models/mod.rs` lines 48–58). -/
structure Contributor where
  id : Int
  username : RStr
  role : RStr
  is_active : Bool
  can_edit_and_delete_own_posts : Bool
  can_edit_any_post : Bool
  can_delete_any_post : Bool
  can_approve_posts : Bool
  last_login_time : Option RStr
deriving DecidableEq

/-- `PostAction` (`models/mod.rs` lines 79–82). -/
inductive PostAction where
  | Edit
  | Delete
deriving DecidableEq

/-- `PostSummary` (`models/mod.rs`). -/
structure PostSummary where
  id : PostId
  metadata : PostMetadata
deriving DecidableEq

/-- A key of the `tag_index` / `search_appear_keyword_index` redb tables:
`(&str, i64, &[u8; 16])`. -/
abbrev IdxKey := RStr × Int × PostId

/-- The redb store: the four content tables and the three index tables of
`posts_db_operations.rs`. -/
structure RedbState where
  posts : List (PostId × RStr)
  metadata : List (PostId × PostMetadata)
  tag_index : List IdxKey
  keyword_index : List IdxKey
  chronological_index : List (Int × PostId)
  pending_posts : List (PostId × RStr)
  pending_metadata : List (PostId × PostMetadata)
deriving DecidableEq

/-- A `post_ownership` row (`post_id TEXT PRIMARY KEY, user_id, edit_log`). -/
structure OwnershipRow where
  post_id : PostId
  user_id : Int
  edit_log : Option (List EditLogEntry)
deriving DecidableEq

/-- A `pending_post_ownership` row (`post_id TEXT PRIMARY KEY, user_id`). -/
structure PendingOwnershipRow where
  post_id : PostId
  user_id : Int
deriving DecidableEq

/-- The SQLite store: the two ownership tables touched by the claims. -/
structure SqlState where
  post_ownership : List OwnershipRow
  pending_post_ownership : List PendingOwnershipRow
deriving DecidableEq

/-- `DbError` (`posts_db_operations.rs` lines 10–28), restricted to the
variants the modelled operations can produce: `NotFound`, the rusqlite
`QueryReturnedNoRows` error, and a redb storage/commit failure. -/
inductive DbError where
  | NotFound : RStr → DbError
  | SqlNoRows : DbError
  | RedbStorage : DbError
deriving DecidableEq

/-- Result of an operation that touches both stores: the error (if any)
and the state both stores are left in. -/
structure OpResult where
  err : Option DbError
  db : RedbState
  sql : SqlState
deriving DecidableEq

/-! ## redb table primitives -/

/-- `table.get(key)` on a keyed redb table. -/
def kvGet (k : PostId) (l : List (PostId × α)) : Option α :=
  (l.find? (fun e => e.1 = k)).map (fun e => e.2)

/-- `table.insert(key, value)`: redb replaces the value of an existing
key. -/
def kvInsert (k : PostId) (v : α) (l : List (PostId × α)) :
    List (PostId × α) :=
  (k, v) :: l.filter (fun e => e.1 ≠ k)

/-- `table.remove(key)` (it is fine if the key is absent). -/
def kvRemove (k : PostId) (l : List (PostId × α)) : List (PostId × α) :=
  l.filter (fun e => e.1 ≠ k)

/-- `table.insert(key, ())` on an index table (key sets, no values). -/
def idx_insert [DecidableEq α] (k : α) (l : List α) : List α :=
  if k ∈ l then l else k :: l

/-- `table.remove(key)` on an index table. -/
def idx_remove [DecidableEq α] (k : α) (l : List α) : List α :=
  l.filter (fun e => e ≠ k)

/-- A `for`-loop of index insertions. -/
def idx_insert_all [DecidableEq α] (ks : List α) (l : List α) : List α :=
  ks.foldl (fun acc k => idx_insert k acc) l

/-- A `for`-loop of index removals. -/
def idx_remove_all [DecidableEq α] (ks : List α) (l : List α) : List α :=
  ks.foldl (fun acc k => idx_remove k acc) l

/-- Ascending order of `chronological_index` keys `(i64, &[u8; 16])`:
redb compares the timestamp first, then the raw id bytes. -/
def chrono_key_lt (a b : Int × PostId) : Prop :=
  a.1 < b.1 ∨ (a.1 = b.1 ∧ a.2 < b.2)

instance (a b : Int × PostId) : Decidable (chrono_key_lt a b) := by
  unfold chrono_key_lt
  infer_instance

/-- Insertion into the chronological index, which the model keeps sorted
in ascending key order because redb iterates it in that order. -/
def chrono_insert (k : Int × PostId) :
    List (Int × PostId) → List (Int × PostId)
  | [] => [k]
  | x :: xs =>
    if chrono_key_lt k x then k :: x :: xs
    else if k = x then x :: xs
    else x :: chrono_insert k xs

/-- `table.remove(key)` on the chronological index. -/
def chrono_remove (k : Int × PostId) (l : List (Int × PostId)) :
    List (Int × PostId) :=
  l.filter (fun e => e ≠ k)

/-! ## `users_db_operations.rs` -/

/-- The `"admin"` role string. -/
def admin_role : RStr := "admin".data

/-- The SQL query `SELECT user_id FROM post_ownership WHERE post_id = ?`
(first matching row, as `query_row` returns). -/
def find_post_ownership (sql : SqlState) (pid : PostId) :
    Option OwnershipRow :=
  sql.post_ownership.find? (fun r => r.post_id = pid)

/-- The same query against `pending_post_ownership`. -/
def find_pending_post_ownership (sql : SqlState) (pid : PostId) :
    Option PendingOwnershipRow :=
  sql.pending_post_ownership.find? (fun r => r.post_id = pid)

/-- `check_permission` (`users_db_operations.rs` lines 142–157). -/
def check_permission (sql : SqlState) (user : Contributor) (pid : PostId)
    (action : PostAction) : Bool :=
  if user.role = admin_role then true
  else
    let is_owner : Bool :=
      match find_post_ownership sql pid with
      | some r => r.user_id = user.id
      | none => false
    match action with
    | .Edit =>
      (is_owner && user.can_edit_and_delete_own_posts) || user.can_edit_any_post
    | .Delete =>
      (is_owner && user.can_edit_and_delete_own_posts) || user.can_delete_any_post

/-- `check_pending_permission` (`users_db_operations.rs` lines 160–176). -/
def check_pending_permission (sql : SqlState) (user : Contributor)
    (pid : PostId) (action : PostAction) : Bool :=
  let is_owner : Bool :=
    match find_pending_post_ownership sql pid with
    | some r => r.user_id = user.id
    | none => false
  match action with
  | .Edit => is_owner
  | .Delete => is_owner || user.role = admin_role || user.can_approve_posts

/-- `get_pending_post_owner_id` (`users_db_operations.rs` lines 249–271):
prefer the `pending_post_ownership` row; fall back to `post_ownership`
for the re-approval of an edited post; error if neither exists. -/
def get_pending_post_owner_id (sql : SqlState) (pid : PostId) :
    Except DbError Int :=
  match find_pending_post_ownership sql pid with
  | some r => .ok r.user_id
  | none =>
    match find_post_ownership sql pid with
    | some r => .ok r.user_id
    | none => .error .SqlNoRows

/-- `INSERT OR IGNORE INTO post_ownership (post_id, user_id)` from
`approve_post`: `post_id` is the table's primary key, so the statement
inserts exactly when no row with this id exists, and never errors on a
duplicate. -/
def insert_or_ignore_post_ownership (sql : SqlState) (pid : PostId)
    (uid : Int) : SqlState :=
  if sql.post_ownership.any (fun r => r.post_id = pid) then sql
  else { sql with post_ownership := sql.post_ownership ++ [⟨pid, uid, none⟩] }

/-- `DELETE FROM post_ownership WHERE post_id = ?`. -/
def delete_post_ownership (sql : SqlState) (pid : PostId) : SqlState :=
  { sql with
    post_ownership := sql.post_ownership.filter (fun r => r.post_id ≠ pid) }

/-- `delete_pending_post_ownership` (`users_db_operations.rs` 243–245). -/
def delete_pending_post_ownership (sql : SqlState) (pid : PostId) :
    SqlState :=
  { sql with
    pending_post_ownership :=
      sql.pending_post_ownership.filter (fun r => r.post_id ≠ pid) }

/-- `append_to_edit_log` (`users_db_operations.rs` lines 282–308): read
the current log of the `post_ownership` row (error when the row is
missing), append one entry numbered `len + 1`, and write the new log
back to every row with this post id. -/
def append_to_edit_log (sql : SqlState) (pid : PostId)
    (editor_username : RStr) (now : Int) : Except DbError SqlState :=
  match find_post_ownership sql pid with
  | none => .error .SqlNoRows
  | some row =>
    let log := row.edit_log.getD []
    let entry : EditLogEntry :=
      { edit_number := log.length + 1
        editor_username := editor_username
        edited_at := now }
    .ok { sql with
      post_ownership := sql.post_ownership.map (fun r =>
        if r.post_id = pid then { r with edit_log := some (log ++ [entry]) }
        else r) }

/-! ## `posts_db_operations.rs` -/

/-- `delete_pending_post` (lines 130–145): one write transaction that
removes the pending content and pending metadata rows; absent keys are
fine, so the operation cannot fail. -/
def delete_pending_post (db : RedbState) (pid : PostId) : RedbState :=
  { db with
    pending_posts := kvRemove pid db.pending_posts
    pending_metadata := kvRemove pid db.pending_metadata }

/-- `update_pending_post` (lines 148–200): preserve `created_at` from the
stored metadata, stamp `last_updated_at := now`, replace content and
metadata. -/
def update_pending_post (db : RedbState) (pid : PostId)
    (title summary content tags_str search_keywords_str : RStr)
    (cover_image : Option RStr) (has_call_to_action : Option Bool)
    (now : Int) : Except DbError RedbState :=
  match kvGet pid db.pending_metadata with
  | none => .error (.NotFound "Pending post metadata not found".data)
  | some old_meta =>
    let new_meta : PostMetadata :=
      { title := title
        created_at := old_meta.created_at
        last_updated_at := some now
        summary := summary
        tags := display_tokens tags_str
        cover_image := cover_image
        has_call_to_action := has_call_to_action
        search_keywords := some (display_tokens search_keywords_str) }
    .ok { db with
      pending_posts := kvInsert pid content db.pending_posts
      pending_metadata := kvInsert pid new_meta db.pending_metadata }

/-- The body of the redb write transaction of `approve_post` (lines
314–342): write content and metadata into the published tables, add the
chronological entry keyed by the negated creation timestamp, and add one
tag-index entry per `generate_all_tags` result and one keyword-index
entry per `process_keywords` result. -/
def approve_redb_write (db : RedbState) (pid : PostId) (content : RStr)
    (metadata : PostMetadata) : RedbState :=
  let all_index_tags := generate_all_tags (join_comma_space metadata.tags)
  let index_keywords :=
    process_keywords (join_comma_space (metadata.search_keywords.getD []))
  let timestamp := -metadata.created_at
  { db with
    posts := kvInsert pid content db.posts
    metadata := kvInsert pid metadata db.metadata
    chronological_index :=
      chrono_insert (timestamp, pid) db.chronological_index
    tag_index :=
      idx_insert_all (all_index_tags.map (fun t => (t, timestamp, pid)))
        db.tag_index
    keyword_index :=
      idx_insert_all (index_keywords.map (fun k => (k, timestamp, pid)))
        db.keyword_index }

/-- `approve_post` (lines 286–356): (1) read the pending rows (NotFound
aborts before any write); (2) resolve the author and perform the
idempotent ownership insert; (3) run the redb write transaction —
`redb_ok = false` injects its failure, which triggers the compensating
`DELETE FROM post_ownership` and returns the error; (4) on success drop
the pending rows and the pending-ownership row. -/
def approve_post (db : RedbState) (sql : SqlState) (pid : PostId)
    (redb_ok : Bool) : OpResult :=
  match kvGet pid db.pending_posts with
  | none => ⟨some (.NotFound "Pending post content not found".data), db, sql⟩
  | some content =>
    match kvGet pid db.pending_metadata with
    | none =>
      ⟨some (.NotFound "Pending post metadata not found".data), db, sql⟩
    | some metadata =>
      match get_pending_post_owner_id sql pid with
      | .error e => ⟨some e, db, sql⟩
      | .ok author_id =>
        let sql1 := insert_or_ignore_post_ownership sql pid author_id
        if redb_ok then
          let db1 := approve_redb_write db pid content metadata
          let db2 := delete_pending_post db1 pid
          let sql2 := delete_pending_post_ownership sql1 pid
          ⟨none, db2, sql2⟩
        else
          ⟨some .RedbStorage, db, delete_post_ownership sql1 pid⟩

/-- `move_published_to_pending` (lines 361–388): one write transaction
that copies content and metadata into the pending tables and removes
them from the published tables. NOTE (faithful to the source): the
transaction does not touch `tag_index`, `search_appear_keyword_index`
or `chronological_index`; the code itself comments that "a full
implementation must remove from all indices". -/
def move_published_to_pending (db : RedbState) (pid : PostId) :
    Except DbError RedbState :=
  match kvGet pid db.posts with
  | none => .error (.NotFound [])
  | some content =>
    match kvGet pid db.metadata with
    | none => .error (.NotFound [])
    | some metadata =>
      .ok { db with
        pending_posts := kvInsert pid content db.pending_posts
        pending_metadata := kvInsert pid metadata db.pending_metadata
        posts := kvRemove pid db.posts
        metadata := kvRemove pid db.metadata }

/-- `update_post` (lines 420–498): inside one write transaction, read the
stored metadata (NotFound aborts), remove every tag-index entry derived
from the *old* tags and every keyword-index entry derived from the old
keywords (at the preserved creation timestamp), then write the new
content/metadata and insert the full new entry sets. -/
def update_post (db : RedbState) (pid : PostId)
    (title summary content tags_str search_keywords_str : RStr)
    (cover_image : Option RStr) (has_call_to_action : Option Bool)
    (now : Int) : Except DbError RedbState :=
  match kvGet pid db.metadata with
  | none => .error (.NotFound "Post metadata not found".data)
  | some old_meta =>
    let timestamp := -old_meta.created_at
    let old_tags_to_remove :=
      generate_all_tags (join_comma_space old_meta.tags)
    let tag_index1 :=
      idx_remove_all (old_tags_to_remove.map (fun t => (t, timestamp, pid)))
        db.tag_index
    let keyword_index1 :=
      match old_meta.search_keywords with
      | some old_keywords =>
        idx_remove_all
          ((process_keywords (join_comma_space old_keywords)).map
            (fun k => (k, timestamp, pid)))
          db.keyword_index
      | none => db.keyword_index
    let new_meta : PostMetadata :=
      { title := title
        created_at := old_meta.created_at
        last_updated_at := some now
        summary := summary
        tags := display_tokens tags_str
        cover_image := cover_image
        has_call_to_action := has_call_to_action
        search_keywords := some (display_tokens search_keywords_str) }
    let new_tags_to_add := generate_all_tags tags_str
    let new_index_keywords := process_keywords search_keywords_str
    .ok { db with
      posts := kvInsert pid content db.posts
      metadata := kvInsert pid new_meta db.metadata
      tag_index :=
        idx_insert_all (new_tags_to_add.map (fun t => (t, timestamp, pid)))
          tag_index1
      keyword_index :=
        idx_insert_all
          (new_index_keywords.map (fun k => (k, timestamp, pid)))
          keyword_index1 }

/-- `read_latest_post_summaries` (lines 547–570): iterate the
chronological index in ascending key order, skip `offset`, take `limit`,
and keep the entries whose metadata row exists. -/
def read_latest_post_summaries (db : RedbState) (limit offset : Nat) :
    List PostSummary :=
  ((db.chronological_index.drop offset).take limit).filterMap (fun key =>
    (kvGet key.2 db.metadata).map (fun m => ⟨key.2, m⟩))

/-! ## `contributor_helpers.rs` -/

/-- `re_submit_for_approval` (`contributor_helpers.rs` lines 140–160):
append to the edit log, atomically move the post from published to
pending, then update the now-pending post with the caller's new values.
(The HTML-sanitisation wrappers are string-to-string maps applied to the
caller's arguments before this sequence; they are irrelevant to the
claims and are modelled as already applied.) -/
def re_submit_for_approval (db : RedbState) (sql : SqlState)
    (editor : Contributor) (pid : PostId)
    (title summary content tags_str search_keywords_str : RStr)
    (cover_image : Option RStr) (has_call_to_action : Option Bool)
    (now : Int) : OpResult :=
  match append_to_edit_log sql pid editor.username now with
  | .error e => ⟨some e, db, sql⟩
  | .ok sql1 =>
    match move_published_to_pending db pid with
    | .error e => ⟨some e, db, sql1⟩
    | .ok db1 =>
      match
        update_pending_post db1 pid title summary content tags_str
          search_keywords_str cover_image has_call_to_action now
      with
      | .error e => ⟨some e, db1, sql1⟩
      | .ok db2 => ⟨none, db2, sql1⟩

/-- `delete_pending_post` helper (`contributor_helpers.rs` lines
261–271): redb deletion first, then the pending-ownership row. -/
def contributor_delete_pending_post (db : RedbState) (sql : SqlState)
    (pid : PostId) : OpResult :=
  let db1 := delete_pending_post db pid
  let sql1 := delete_pending_post_ownership sql pid
  ⟨none, db1, sql1⟩

/-! ## Spec-side tag expansion and concrete witness states -/

/-- The prefix paths produced by the `current_path` accumulator of the
`generate_all_tags` loop, starting from state `cur`. -/
def loop_paths : List RStr → Option RStr → List RStr
  | [], _ => []
  | p :: ps, none => p :: loop_paths ps (some p)
  | p :: ps, some c => (c ++ '/' :: p) :: loop_paths ps (some (c ++ '/' :: p))

/-- Modelled from the spec: the non-trivial `'/'`-prefix paths of a
segment list — for segments `s₁ … sₙ` the paths `s₁`, `s₁/s₂`, …,
`s₁/…/sₙ`. -/
def slash_prefix_paths : List RStr → List RStr
  | [] => []
  | p :: ps => p :: (slash_prefix_paths ps).map (fun t => p ++ '/' :: t)

/-- The per-tag contribution of the `generate_all_tags` loop body. -/
def code_tag_expansion (tag : RStr) : List RStr :=
  let parts := (splitOnChar '/' tag).map trimChars
  if 1 < parts.length then insertPartsLoop parts none [tag] else [tag]

/-- Modelled from the spec: the expansion of one normalized tag — "for
each tag, split on `/`, and insert every non-empty prefix path plus
every individual segment" (§4.2), the segments being taken trimmed as
everywhere else in the normalizer. -/
def spec_tag_expansion (tag : RStr) : List RStr :=
  let segments := (splitOnChar '/' tag).map trimChars
  tag :: (segments ++
    (slash_prefix_paths segments).filter (fun t => t ≠ []))

/-- Modelled from the spec: the full tag set of a comma-separated input,
one `spec_tag_expansion` per trimmed lowercased non-empty tag. -/
def spec_generate_all_tags (s : RStr) : List RStr :=
  (normalize_comma_tokens s).flatMap spec_tag_expansion

/-- Concrete published post metadata used by the C9 witness. -/
def C9meta : PostMetadata :=
  { title := "t".data, created_at := 4, last_updated_at := none,
    summary := [], tags := [], cover_image := none,
    has_call_to_action := none, search_keywords := none }

/-- Concrete redb state used by the C9 witness: post 1 published. -/
def C9db : RedbState :=
  { posts := [(1, "x".data)], metadata := [(1, C9meta)], tag_index := [],
    keyword_index := [], chronological_index := [], pending_posts := [],
    pending_metadata := [] }

/-- Concrete SQL state used by the C9 witness: post 1 owned by user 7. -/
def C9sql : SqlState := ⟨[⟨1, 7, none⟩], [⟨2, 9⟩]⟩

/-- Concrete editor used by the C9 witness. -/
def C9editor : Contributor :=
  ⟨7, "e".data, "contributor".data, true, true, false, false, false, none⟩

/-- Concrete metadata for the C3 witness: tags `"x"`, created at 3. -/
def C3meta : PostMetadata :=
  { title := "t".data, created_at := 3, last_updated_at := none,
    summary := [], tags := ["x".data], cover_image := none,
    has_call_to_action := none, search_keywords := none }

/-- Concrete redb state for the C3 witness: post 1 published with tag
`"x"` and the matching index entry. -/
def C3db : RedbState :=
  { posts := [(1, "p".data)], metadata := [(1, C3meta)],
    tag_index := [("x".data, -3, 1)], keyword_index := [],
    chronological_index := [(-3, 1)], pending_posts := [],
    pending_metadata := [] }

/-- Concrete metadata family for the C8 witness. -/
def C8meta (n : Int) : PostMetadata :=
  { title := [], created_at := n, last_updated_at := none, summary := [],
    tags := [], cover_image := none, has_call_to_action := none,
    search_keywords := none }

/-! ## Table lemmas -/

theorem mem_insertUnique [DecidableEq α] (x k : α) (l : List α) :
    x ∈ insertUnique k l ↔ x ∈ l ∨ x = k := by
  by_cases h : k ∈ l <;> simp [insertUnique, h]
  intro hx
  exact hx ▸ h

theorem mem_idx_insert [DecidableEq α] (x k : α) (l : List α) :
    x ∈ idx_insert k l ↔ x ∈ l ∨ x = k := by
  by_cases h : k ∈ l <;> simp [idx_insert, h, or_comm]
  intro hx
  exact hx ▸ h

theorem mem_idx_remove [DecidableEq α] (x k : α) (l : List α) :
    x ∈ idx_remove k l ↔ x ∈ l ∧ x ≠ k := by
  simp [idx_remove, List.mem_filter]

theorem mem_idx_insert_all [DecidableEq α] (x : α) (ks l : List α) :
    x ∈ idx_insert_all ks l ↔ x ∈ l ∨ x ∈ ks := by
  induction ks generalizing l with
  | nil => simp [idx_insert_all]
  | cons k ks ih =>
    simp only [idx_insert_all, List.foldl_cons] at *
    rw [ih, mem_idx_insert]
    simp [or_assoc, or_comm, or_left_comm]

theorem mem_idx_remove_all [DecidableEq α] (x : α) (ks l : List α) :
    x ∈ idx_remove_all ks l ↔ x ∈ l ∧ x ∉ ks := by
  induction ks generalizing l with
  | nil => simp [idx_remove_all]
  | cons k ks ih =>
    simp only [idx_remove_all, List.foldl_cons] at *
    rw [ih, mem_idx_remove]
    simp only [List.mem_cons]
    tauto

theorem nodup_idx_insert [DecidableEq α] (k : α) (l : List α)
    (h : l.Nodup) : (idx_insert k l).Nodup := by
  by_cases hk : k ∈ l <;> simp [idx_insert, hk, h]

theorem nodup_idx_remove [DecidableEq α] (k : α) (l : List α)
    (h : l.Nodup) : (idx_remove k l).Nodup :=
  h.filter _

theorem nodup_idx_insert_all [DecidableEq α] (ks l : List α)
    (h : l.Nodup) : (idx_insert_all ks l).Nodup := by
  induction ks generalizing l with
  | nil => simpa [idx_insert_all] using h
  | cons k ks ih =>
    simpa [idx_insert_all] using ih _ (nodup_idx_insert k l h)

theorem nodup_idx_remove_all [DecidableEq α] (ks l : List α)
    (h : l.Nodup) : (idx_remove_all ks l).Nodup := by
  induction ks generalizing l with
  | nil => simpa [idx_remove_all] using h
  | cons k ks ih =>
    simpa [idx_remove_all] using ih _ (nodup_idx_remove k l h)

theorem find?_filter_comm (p q : α → Bool) (l : List α)
    (h : ∀ x, p x = true → q x = true) :
    (l.filter q).find? p = l.find? p := by
  induction l with
  | nil => rfl
  | cons e es ih =>
    by_cases hq : q e = true
    · by_cases hp : p e = true
      · simp [List.filter_cons, hq, List.find?_cons, hp]
      · simp only [Bool.not_eq_true] at hp
        simp [List.filter_cons, hq, List.find?_cons, hp, ih]
    · have hp : p e = false := by
        by_contra hc
        simp only [Bool.not_eq_false] at hc
        exact hq (h e hc)
      simp only [Bool.not_eq_true] at hq
      simp [List.filter_cons, hq, List.find?_cons, hp, ih]

theorem kvGet_kvInsert_self (k : PostId) (v : α) (l : List (PostId × α)) :
    kvGet k (kvInsert k v l) = some v := by
  simp [kvGet, kvInsert, List.find?_cons]

theorem kvGet_kvInsert_ne (k k' : PostId) (v : α) (l : List (PostId × α))
    (h : k' ≠ k) : kvGet k' (kvInsert k v l) = kvGet k' l := by
  have hcons : (decide ((k, v).1 = k')) = false := by
    simp only [decide_eq_false_iff_not]
    exact fun hc => h hc.symm
  simp only [kvGet, kvInsert, List.find?_cons, hcons]
  rw [find?_filter_comm]
  intro x hx
  simp only [decide_eq_true_eq] at hx ⊢
  rw [hx]
  exact h

theorem kvGet_kvRemove_self (k : PostId) (l : List (PostId × α)) :
    kvGet k (kvRemove k l) = none := by
  simp only [kvGet, kvRemove, Option.map_eq_none', List.find?_eq_none]
  intro x hx
  simp only [List.mem_filter, decide_eq_true_eq] at hx ⊢
  exact hx.2

theorem kvGet_kvRemove_ne (k k' : PostId) (l : List (PostId × α))
    (h : k' ≠ k) : kvGet k' (kvRemove k l) = kvGet k' l := by
  simp only [kvGet, kvRemove]
  rw [find?_filter_comm]
  intro x hx
  simp only [decide_eq_true_eq] at hx ⊢
  rw [hx]
  exact h

/-! ## String-model lemmas -/

theorem dropWhile_idem (p : α → Bool) (l : List α) :
    (l.dropWhile p).dropWhile p = l.dropWhile p := by
  induction l with
  | nil => rfl
  | cons c cs ih =>
    by_cases h : p c = true
    · rw [List.dropWhile_cons_of_pos h, ih]
    · rw [Bool.not_eq_true] at h
      have h' : ¬ p c := by simp [h]
      rw [List.dropWhile_cons_of_neg h', List.dropWhile_cons_of_neg h']

theorem dropWhile_eq_self_of_initial (p : α → Bool) {l m : List α}
    (hpre : m <+: l) (hl : l.dropWhile p = l) : m.dropWhile p = m := by
  cases m with
  | nil => rfl
  | cons c cs =>
    have hpc : ¬ p c := by
      obtain ⟨t, ht⟩ := hpre
      intro hc
      rw [← ht, List.cons_append, List.dropWhile_cons_of_pos hc] at hl
      have h1 : ((cs ++ t).dropWhile p).length ≤ (cs ++ t).length :=
        (List.dropWhile_suffix p).sublist.length_le
      rw [hl] at h1
      simp only [List.length_cons] at h1
      omega
    rw [List.dropWhile_cons_of_neg hpc]

theorem trim_trim (s : RStr) : trimChars (trimChars s) = trimChars s := by
  unfold trimChars
  have hl0 : (s.dropWhile isWs).dropWhile isWs = s.dropWhile isWs :=
    dropWhile_idem isWs s
  have hpre :
      ((s.dropWhile isWs).reverse.dropWhile isWs).reverse <+:
        s.dropWhile isWs := by
    rw [← List.reverse_suffix, List.reverse_reverse]
    exact List.dropWhile_suffix isWs
  rw [dropWhile_eq_self_of_initial isWs hpre hl0, List.reverse_reverse,
    dropWhile_idem]

theorem trimChars_space_cons (s : RStr) :
    trimChars (' ' :: s) = trimChars s := by
  unfold trimChars
  rw [List.dropWhile_cons_of_pos (by decide)]

theorem mem_of_mem_trimChars {c : Char} {s : RStr}
    (h : c ∈ trimChars s) : c ∈ s := by
  unfold trimChars at h
  rw [List.mem_reverse] at h
  have h2 := (List.dropWhile_suffix isWs).subset h
  rw [List.mem_reverse] at h2
  exact (List.dropWhile_suffix isWs).subset h2

theorem isWs_lowerChar (c : Char) : isWs (lowerChar c) = isWs c := by
  unfold lowerChar
  by_cases h1 : c = 'A'
  · subst h1; decide
  rw [if_neg h1]
  by_cases h2 : c = 'B'
  · subst h2; decide
  rw [if_neg h2]
  by_cases h3 : c = 'C'
  · subst h3; decide
  rw [if_neg h3]
  by_cases h4 : c = 'D'
  · subst h4; decide
  rw [if_neg h4]
  by_cases h5 : c = 'E'
  · subst h5; decide
  rw [if_neg h5]
  by_cases h6 : c = 'F'
  · subst h6; decide
  rw [if_neg h6]
  by_cases h7 : c = 'G'
  · subst h7; decide
  rw [if_neg h7]
  by_cases h8 : c = 'H'
  · subst h8; decide
  rw [if_neg h8]
  by_cases h9 : c = 'I'
  · subst h9; decide
  rw [if_neg h9]
  by_cases h10 : c = 'J'
  · subst h10; decide
  rw [if_neg h10]
  by_cases h11 : c = 'K'
  · subst h11; decide
  rw [if_neg h11]
  by_cases h12 : c = 'L'
  · subst h12; decide
  rw [if_neg h12]
  by_cases h13 : c = 'M'
  · subst h13; decide
  rw [if_neg h13]
  by_cases h14 : c = 'N'
  · subst h14; decide
  rw [if_neg h14]
  by_cases h15 : c = 'O'
  · subst h15; decide
  rw [if_neg h15]
  by_cases h16 : c = 'P'
  · subst h16; decide
  rw [if_neg h16]
  by_cases h17 : c = 'Q'
  · subst h17; decide
  rw [if_neg h17]
  by_cases h18 : c = 'R'
  · subst h18; decide
  rw [if_neg h18]
  by_cases h19 : c = 'S'
  · subst h19; decide
  rw [if_neg h19]
  by_cases h20 : c = 'T'
  · subst h20; decide
  rw [if_neg h20]
  by_cases h21 : c = 'U'
  · subst h21; decide
  rw [if_neg h21]
  by_cases h22 : c = 'V'
  · subst h22; decide
  rw [if_neg h22]
  by_cases h23 : c = 'W'
  · subst h23; decide
  rw [if_neg h23]
  by_cases h24 : c = 'X'
  · subst h24; decide
  rw [if_neg h24]
  by_cases h25 : c = 'Y'
  · subst h25; decide
  rw [if_neg h25]
  by_cases h26 : c = 'Z'
  · subst h26; decide
  rw [if_neg h26]

theorem lowerRStr_eq_nil {s : RStr} : lowerRStr s = [] ↔ s = [] := by
  simp [lowerRStr]

theorem trimChars_lowerRStr (s : RStr) :
    trimChars (lowerRStr s) = lowerRStr (trimChars s) := by
  have hfun : (isWs ∘ lowerChar) = isWs := funext fun c => isWs_lowerChar c
  unfold trimChars lowerRStr
  rw [List.dropWhile_map, hfun, ← List.map_reverse, List.dropWhile_map,
    hfun, ← List.map_reverse]

theorem trim_of_normalized (s : RStr) :
    trimChars (lowerRStr (trimChars s)) = lowerRStr (trimChars s) := by
  rw [trimChars_lowerRStr, trim_trim]

theorem splitOnChar_ne_nil (sep : Char) (s : RStr) :
    splitOnChar sep s ≠ [] := by
  cases s with
  | nil => simp [splitOnChar]
  | cons c cs =>
    unfold splitOnChar
    by_cases h : c = sep
    · simp [h]
    · rw [if_neg h]
      cases hs : splitOnChar sep cs <;> simp

theorem not_sep_mem_of_mem_splitOnChar {sep : Char} {s t : RStr}
    (ht : t ∈ splitOnChar sep s) : sep ∉ t := by
  induction s generalizing t with
  | nil =>
    simp only [splitOnChar, List.mem_singleton] at ht
    subst ht
    simp
  | cons c cs ih =>
    unfold splitOnChar at ht
    by_cases h : c = sep
    · rw [if_pos h] at ht
      rcases List.mem_cons.mp ht with h1 | h1
      · subst h1; simp
      · exact ih h1
    · rw [if_neg h] at ht
      cases hs : splitOnChar sep cs with
      | nil => exact absurd hs (splitOnChar_ne_nil sep cs)
      | cons t0 ts =>
        rw [hs] at ht
        rcases List.mem_cons.mp ht with h1 | h1
        · subst h1
          intro hmem
          rcases List.mem_cons.mp hmem with h2 | h2
          · exact h h2.symm
          · exact ih (t := t0) (by rw [hs]; exact List.mem_cons_self t0 ts) h2
        · exact ih (t := t) (by rw [hs]; exact List.mem_cons.mpr (Or.inr h1))

theorem splitOnChar_of_not_mem {sep : Char} {s : RStr} (h : sep ∉ s) :
    splitOnChar sep s = [s] := by
  induction s with
  | nil => rfl
  | cons c cs ih =>
    have hc : ¬ c = sep := fun hc => h (hc ▸ List.mem_cons_self c cs)
    have hcs : sep ∉ cs := fun hm => h (List.mem_cons.mpr (Or.inr hm))
    unfold splitOnChar
    rw [if_neg hc, ih hcs]

theorem splitOnChar_cons_eq (sep a : Char) (cs : RStr) (h : ¬ a = sep)
    {t : RStr} {ts : List RStr} (hs : splitOnChar sep cs = t :: ts) :
    splitOnChar sep (a :: cs) = (a :: t) :: ts := by
  unfold splitOnChar
  rw [if_neg h, hs]

theorem splitOnChar_append {sep : Char} {c r : RStr} (h : sep ∉ c) :
    splitOnChar sep (c ++ sep :: r) = c :: splitOnChar sep r := by
  induction c with
  | nil => simp [splitOnChar]
  | cons a as ih =>
    have ha : ¬ a = sep := fun hc => h (hc ▸ List.mem_cons_self a as)
    have has : sep ∉ as := fun hm => h (List.mem_cons.mpr (Or.inr hm))
    rw [List.cons_append, splitOnChar_cons_eq sep a _ ha (ih has)]

theorem splitOnChar_join_comma {chunks : List RStr} {c : RStr}
    (h : ∀ x ∈ c :: chunks, ',' ∉ x) :
    splitOnChar ',' (join_comma_space (c :: chunks)) =
      c :: chunks.map (fun t => ' ' :: t) := by
  induction chunks generalizing c with
  | nil =>
    simp only [join_comma_space, joinWith, List.map_nil]
    exact splitOnChar_of_not_mem (h c (List.mem_cons_self c []))
  | cons d ds ih =>
    have hc : ',' ∉ c := h c (List.mem_cons_self c (d :: ds))
    have hrest : ∀ x ∈ d :: ds, ',' ∉ x := fun x hx =>
      h x (List.mem_cons.mpr (Or.inr hx))
    have hj : join_comma_space (c :: d :: ds) =
        c ++ ',' :: (' ' :: join_comma_space (d :: ds)) := by
      simp [join_comma_space, joinWith]
    rw [hj, splitOnChar_append hc]
    congr 1
    rw [splitOnChar_cons_eq ',' ' ' _ (by decide) (ih hrest)]
    simp

theorem display_tokens_spec {T x : RStr} (hx : x ∈ display_tokens T) :
    (∃ y ∈ splitOnChar ',' T, x = trimChars y) ∧ x ≠ [] := by
  unfold display_tokens at hx
  rw [List.mem_filter] at hx
  obtain ⟨h1, h2⟩ := hx
  rw [List.mem_map] at h1
  obtain ⟨y, hy, hxy⟩ := h1
  exact ⟨⟨y, hy, hxy.symm⟩, of_decide_eq_true h2⟩

theorem display_tokens_comma_free {T x : RStr}
    (hx : x ∈ display_tokens T) : ',' ∉ x := by
  obtain ⟨⟨y, hy, hxy⟩, _⟩ := display_tokens_spec hx
  subst hxy
  exact fun hm => not_sep_mem_of_mem_splitOnChar hy (mem_of_mem_trimChars hm)

theorem display_tokens_trimmed {T x : RStr}
    (hx : x ∈ display_tokens T) : trimChars x = x := by
  obtain ⟨⟨y, hy, hxy⟩, _⟩ := display_tokens_spec hx
  subst hxy
  exact trim_trim y

theorem map_lower_filter (l : List RStr) :
    (l.filter (fun t => t ≠ [])).map lowerRStr =
      (l.map lowerRStr).filter (fun t => t ≠ []) := by
  rw [List.filter_map]
  congr 1
  apply List.filter_congr
  intro x hx
  simp only [Function.comp_apply, decide_eq_decide]
  constructor
  · intro h1 hc
    exact h1 (lowerRStr_eq_nil.mp hc)
  · intro h1 hc
    exact h1 (lowerRStr_eq_nil.mpr hc)

theorem normalize_eq_map_lower_display (T : RStr) :
    normalize_comma_tokens T = (display_tokens T).map lowerRStr := by
  unfold normalize_comma_tokens display_tokens
  rw [map_lower_filter, List.map_map]
  rfl

theorem normalize_join_of_clean (chunks : List RStr)
    (hcf : ∀ x ∈ chunks, ',' ∉ x) (htr : ∀ x ∈ chunks, trimChars x = x)
    (hne : ∀ x ∈ chunks, x ≠ []) :
    normalize_comma_tokens (join_comma_space chunks) =
      chunks.map lowerRStr := by
  cases chunks with
  | nil => rfl
  | cons c cs =>
    unfold normalize_comma_tokens
    rw [splitOnChar_join_comma hcf]
    rw [List.map_cons, List.map_map, htr c (List.mem_cons_self c cs)]
    have hmap : (cs.map ((fun t => lowerRStr (trimChars t)) ∘
        (fun t => ' ' :: t))) = cs.map lowerRStr := by
      apply List.map_congr_left
      intro x hx
      simp only [Function.comp_apply]
      rw [trimChars_space_cons, htr x (List.mem_cons.mpr (Or.inr hx))]
    rw [hmap]
    apply List.filter_eq_self.mpr
    intro x hx
    rcases List.mem_cons.mp hx with h1 | h1
    · subst h1
      exact decide_eq_true (fun hc => hne c (List.mem_cons_self c cs)
        (lowerRStr_eq_nil.mp hc))
    · rw [List.mem_map] at h1
      obtain ⟨y, hy, hxy⟩ := h1
      subst hxy
      exact decide_eq_true (fun hc => hne y (List.mem_cons.mpr (Or.inr hy))
        (lowerRStr_eq_nil.mp hc))

theorem normalize_join_display (T : RStr) :
    normalize_comma_tokens (join_comma_space (display_tokens T)) =
      normalize_comma_tokens T := by
  rw [normalize_join_of_clean (display_tokens T)
      (fun x hx => display_tokens_comma_free hx)
      (fun x hx => display_tokens_trimmed hx)
      (fun x hx => (display_tokens_spec hx).2),
    normalize_eq_map_lower_display]

theorem generate_all_tags_join_display (T : RStr) :
    generate_all_tags (join_comma_space (display_tokens T)) =
      generate_all_tags T := by
  unfold generate_all_tags
  rw [normalize_join_display]

/-! ## Characterising `generate_all_tags` -/

theorem mem_insertPartsLoop (x : RStr) (ps : List RStr) (cur : Option RStr)
    (acc : List RStr) :
    x ∈ insertPartsLoop ps cur acc ↔
      x ∈ acc ∨ x ∈ ps ∨ x ∈ loop_paths ps cur := by
  induction ps generalizing cur acc with
  | nil => cases cur <;> simp [insertPartsLoop, loop_paths]
  | cons p ps ih =>
    cases cur with
    | none =>
      simp only [insertPartsLoop, loop_paths, ih, mem_insertUnique,
        List.mem_cons]
      tauto
    | some c =>
      simp only [insertPartsLoop, loop_paths, ih, mem_insertUnique,
        List.mem_cons]
      tauto

theorem loop_paths_some (ps : List RStr) (c : RStr) :
    loop_paths ps (some c) =
      (slash_prefix_paths ps).map (fun t => c ++ '/' :: t) := by
  induction ps generalizing c with
  | nil => rfl
  | cons p ps ih =>
    simp only [loop_paths, slash_prefix_paths, List.map_cons, ih,
      List.map_map]
    congr 1
    apply List.map_congr_left
    intro t _
    simp

theorem loop_paths_none (ps : List RStr) :
    loop_paths ps none = slash_prefix_paths ps := by
  cases ps with
  | nil => rfl
  | cons p ps =>
    simp only [loop_paths, slash_prefix_paths, loop_paths_some]

theorem nil_mem_slash_prefix_paths {ps : List RStr}
    (h : ([] : RStr) ∈ slash_prefix_paths ps) : ([] : RStr) ∈ ps := by
  cases ps with
  | nil => simp [slash_prefix_paths] at h
  | cons p ps =>
    simp only [slash_prefix_paths, List.mem_cons, List.mem_map] at h
    rcases h with h | ⟨t, _, ht⟩
    · exact h ▸ List.mem_cons_self p ps
    · exact absurd ht.symm (by simp)

theorem mem_gen_step (x : RStr) (acc : List RStr) (tag : RStr) :
    x ∈ gen_step acc tag ↔ x ∈ acc ∨ x ∈ code_tag_expansion tag := by
  unfold gen_step code_tag_expansion
  by_cases h : 1 < ((splitOnChar '/' tag).map trimChars).length
  · simp only [if_pos h, mem_insertPartsLoop, mem_insertUnique,
      List.mem_singleton]
    tauto
  · simp only [if_neg h, mem_insertUnique, List.mem_singleton]

theorem mem_generate_all_tags (s x : RStr) :
    x ∈ generate_all_tags s ↔
      ∃ t ∈ normalize_comma_tokens s, x ∈ code_tag_expansion t := by
  unfold generate_all_tags
  suffices h : ∀ (toks : List RStr) (acc : List RStr),
      x ∈ toks.foldl gen_step acc ↔
        x ∈ acc ∨ ∃ t ∈ toks, x ∈ code_tag_expansion t by
    rw [h (normalize_comma_tokens s) []]
    simp
  intro toks
  induction toks with
  | nil => simp
  | cons t ts ih =>
    intro acc
    simp only [List.foldl_cons, ih, mem_gen_step, List.mem_cons]
    constructor
    · rintro (⟨h1 | h1⟩ | ⟨u, hu, hx⟩)
      · exact Or.inl h1
      · exact Or.inr ⟨t, Or.inl rfl, h1⟩
      · exact Or.inr ⟨u, Or.inr hu, hx⟩
    · rintro (h1 | ⟨u, hu | hu, hx⟩)
      · exact Or.inl (Or.inl h1)
      · exact Or.inl (Or.inr (hu ▸ hx))
      · exact Or.inr ⟨u, hu, hx⟩

theorem splitOnChar_singleton {sep : Char} {s y : RStr}
    (h : splitOnChar sep s = [y]) : y = s := by
  induction s generalizing y with
  | nil =>
    simp only [splitOnChar] at h
    exact (List.cons.inj h).1.symm
  | cons c cs ih =>
    unfold splitOnChar at h
    by_cases hc : c = sep
    · rw [if_pos hc] at h
      exact absurd (List.cons.inj h).2 (splitOnChar_ne_nil sep cs)
    · rw [if_neg hc] at h
      cases hs : splitOnChar sep cs with
      | nil => exact absurd hs (splitOnChar_ne_nil sep cs)
      | cons t ts =>
        rw [hs] at h
        obtain ⟨h1, h2⟩ := List.cons.inj h
        subst h2
        rw [ih hs] at h1
        exact h1.symm

theorem normalize_token_trimmed {s t : RStr}
    (ht : t ∈ normalize_comma_tokens s) : trimChars t = t := by
  unfold normalize_comma_tokens at ht
  rw [List.mem_filter] at ht
  obtain ⟨h1, _⟩ := ht
  rw [List.mem_map] at h1
  obtain ⟨y, _, hy⟩ := h1
  rw [← hy]
  exact trim_of_normalized y

theorem code_tag_expansion_eq_spec {tag : RStr} (htr : trimChars tag = tag)
    (x : RStr) :
    x ∈ code_tag_expansion tag ↔ x ∈ spec_tag_expansion tag := by
  unfold code_tag_expansion spec_tag_expansion
  by_cases hlen : 1 < ((splitOnChar '/' tag).map trimChars).length
  · rw [if_pos hlen]
    rw [mem_insertPartsLoop, loop_paths_none]
    simp only [List.mem_singleton, List.mem_cons, List.mem_append,
      List.mem_filter, decide_eq_true_eq, List.not_mem_nil, or_false]
    constructor
    · rintro (h | h | h)
      · exact Or.inl h
      · exact Or.inr (Or.inl h)
      · by_cases hx : x = []
        · subst hx
          exact Or.inr (Or.inl (nil_mem_slash_prefix_paths h))
        · exact Or.inr (Or.inr ⟨h, hx⟩)
    · rintro (h | h | ⟨h, _⟩)
      · exact Or.inl h
      · exact Or.inr (Or.inl h)
      · exact Or.inr (Or.inr h)
  · rw [if_neg hlen]
    have hne := splitOnChar_ne_nil '/' tag
    have hlen1 : ((splitOnChar '/' tag).map trimChars).length = 1 := by
      rw [List.length_map]
      cases hsp : splitOnChar '/' tag with
      | nil => exact absurd hsp hne
      | cons a as =>
        rw [hsp] at hlen
        simp only [List.length_map, List.length_cons] at hlen
        simp only [List.length_cons]
        omega
    obtain ⟨y, hy⟩ := List.length_eq_one.mp (by
      rw [List.length_map] at hlen1
      exact hlen1)
    have hyt : y = tag := splitOnChar_singleton hy
    rw [hyt] at hy
    rw [hy]
    simp only [List.map_cons, List.map_nil, htr, slash_prefix_paths]
    by_cases htag : tag = []
    · subst htag
      simp
    · simp [htag]

/-- Claim C5: for every comma-separated tag string, `generate_all_tags`
returns the set containing, for each trimmed lowercased non-empty tag,
the tag itself, every non-empty `'/'`-prefix path of it and every
individual `'/'`-segment of it; in particular `"a/b/c"` yields exactly
the set `{a, b, c, a/b, a/b/c}`. -/
theorem C5_generate_all_tags_matches_spec :
    (∀ s x : RStr, x ∈ generate_all_tags s ↔ x ∈ spec_generate_all_tags s) ∧
    (generate_all_tags "a/b/c".data).toFinset =
      ({"a".data, "b".data, "c".data, "a/b".data, "a/b/c".data} :
        Finset RStr) := by
  constructor
  · intro s x
    rw [mem_generate_all_tags, spec_generate_all_tags, List.mem_flatMap]
    constructor
    · rintro ⟨t, ht, hx⟩
      exact ⟨t, ht, (code_tag_expansion_eq_spec (normalize_token_trimmed ht) x).mp hx⟩
    · rintro ⟨t, ht, hx⟩
      exact ⟨t, ht, (code_tag_expansion_eq_spec (normalize_token_trimmed ht) x).mpr hx⟩
  · decide

/-- Claim C6: for every user, post id and action in {Edit, Delete},
`check_permission` on a published post returns true iff the user's role
is admin, or the user owns the post (the `post_ownership` row carries
the user's id) and `can_edit_and_delete_own_posts` is set, or the
blanket flag for the action (`can_edit_any_post` for Edit,
`can_delete_any_post` for Delete) is set; in particular an owner with
`can_edit_and_delete_own_posts = false` and no blanket flags gets false
for Edit. -/
theorem C6_check_permission_characterised :
    ∀ (sql : SqlState) (user : Contributor) (pid : PostId),
      (check_permission sql user pid .Edit = true ↔
        (user.role = admin_role ∨
          ((∃ r, find_post_ownership sql pid = some r ∧
              r.user_id = user.id) ∧
            user.can_edit_and_delete_own_posts = true) ∨
          user.can_edit_any_post = true)) ∧
      (check_permission sql user pid .Delete = true ↔
        (user.role = admin_role ∨
          ((∃ r, find_post_ownership sql pid = some r ∧
              r.user_id = user.id) ∧
            user.can_edit_and_delete_own_posts = true) ∨
          user.can_delete_any_post = true)) := by
  intro sql user pid
  constructor
  all_goals
    unfold check_permission
    by_cases hadmin : user.role = admin_role
    · simp [hadmin]
    · rw [if_neg hadmin]
      cases hown : find_post_ownership sql pid with
      | none => simp [hadmin]
      | some r => simp [hadmin]

/-- Claim C7: for every user and pending post id,
`check_pending_permission` with action Edit returns true iff the user
owns the pending post (an admin who is not the owner gets false), and
with action Delete returns true iff the user is the owner, or has role
admin, or has `can_approve_posts` set. -/
theorem C7_check_pending_permission_characterised :
    ∀ (sql : SqlState) (user : Contributor) (pid : PostId),
      (check_pending_permission sql user pid .Edit = true ↔
        (∃ r, find_pending_post_ownership sql pid = some r ∧
          r.user_id = user.id)) ∧
      (check_pending_permission sql user pid .Delete = true ↔
        ((∃ r, find_pending_post_ownership sql pid = some r ∧
            r.user_id = user.id) ∨
          user.role = admin_role ∨ user.can_approve_posts = true)) := by
  intro sql user pid
  constructor
  all_goals
    unfold check_pending_permission
    cases hown : find_pending_post_ownership sql pid with
    | none => simp
    | some r =>
      simp
      try tauto

/-- Claim C4: the ownership-writing step of approve is idempotent — for
every post id whose `post_ownership` row already exists (exactly one
row, as the primary key guarantees), executing the insert-if-absent
ownership write again leaves the state unchanged, hence exactly one
ownership row for that id, and the step (modelling `INSERT OR IGNORE`,
which swallows the uniqueness conflict) produces no error. -/
theorem C4_ownership_insert_idempotent (sql : SqlState) (pid : PostId)
    (uid : Int)
    (h : (sql.post_ownership.filter (fun r => r.post_id = pid)).length = 1) :
    insert_or_ignore_post_ownership sql pid uid = sql ∧
    ((insert_or_ignore_post_ownership sql pid uid).post_ownership.filter
        (fun r => r.post_id = pid)).length = 1 := by
  have hex : sql.post_ownership.any (fun r => r.post_id = pid) = true := by
    rcases hfe : sql.post_ownership.filter (fun r => r.post_id = pid) with
      _ | ⟨r, rs⟩
    · rw [hfe] at h
      simp at h
    · have hr : r ∈ sql.post_ownership.filter (fun r => r.post_id = pid) := by
        rw [hfe]
        exact List.mem_cons_self r rs
      rw [List.mem_filter] at hr
      exact List.any_eq_true.mpr ⟨r, hr.1, hr.2⟩
  have heq : insert_or_ignore_post_ownership sql pid uid = sql := by
    unfold insert_or_ignore_post_ownership
    rw [if_pos hex]
  refine ⟨heq, ?_⟩
  rw [heq]
  exact h

/-- Witness for C4 at a concrete one-row state. -/
theorem C4_ownership_insert_idempotent_witness :
    insert_or_ignore_post_ownership
        ⟨[⟨1, 7, none⟩], []⟩ 1 9 = (⟨[⟨1, 7, none⟩], []⟩ : SqlState) ∧
    ((insert_or_ignore_post_ownership
        ⟨[⟨1, 7, none⟩], []⟩ 1 9).post_ownership.filter
        (fun r => r.post_id = 1)).length = 1 :=
  C4_ownership_insert_idempotent ⟨[⟨1, 7, none⟩], []⟩ 1 9 (by decide)

/-- Claim C2: during approve, if the redb write of published content,
metadata and index entries fails after the ownership row was written,
the operation deletes every `post_ownership` row of that post id and
returns the error, leaving the redb store untouched (so the post stays
unpublished). -/
theorem C2_approve_rollback_on_redb_failure (db : RedbState)
    (sql : SqlState) (pid : PostId) (content : RStr) (meta : PostMetadata)
    (author : Int)
    (hc : kvGet pid db.pending_posts = some content)
    (hm : kvGet pid db.pending_metadata = some meta)
    (ho : get_pending_post_owner_id sql pid = .ok author) :
    (approve_post db sql pid false).err = some DbError.RedbStorage ∧
    (approve_post db sql pid false).db = db ∧
    ∀ row ∈ (approve_post db sql pid false).sql.post_ownership,
      row.post_id ≠ pid := by
  have hred : approve_post db sql pid false =
      ⟨some .RedbStorage, db,
        delete_post_ownership
          (insert_or_ignore_post_ownership sql pid author) pid⟩ := by
    unfold approve_post
    rw [hc, hm, ho]
    simp
  rw [hred]
  refine ⟨rfl, rfl, ?_⟩
  intro row hrow
  unfold delete_post_ownership at hrow
  simp only [List.mem_filter, decide_eq_true_eq] at hrow
  exact hrow.2

/-- Witness for C2 at a concrete state with one pending post. -/
theorem C2_approve_rollback_on_redb_failure_witness :
    (approve_post
        { posts := [], metadata := [], tag_index := [], keyword_index := [],
          chronological_index := [], pending_posts := [(1, "b".data)],
          pending_metadata := [(1,
            { title := [], created_at := 3, last_updated_at := none,
              summary := [], tags := [], cover_image := none,
              has_call_to_action := none, search_keywords := none })] }
        ⟨[], [⟨1, 7⟩]⟩ 1 false).err = some DbError.RedbStorage ∧
    (approve_post
        { posts := [], metadata := [], tag_index := [], keyword_index := [],
          chronological_index := [], pending_posts := [(1, "b".data)],
          pending_metadata := [(1,
            { title := [], created_at := 3, last_updated_at := none,
              summary := [], tags := [], cover_image := none,
              has_call_to_action := none, search_keywords := none })] }
        ⟨[], [⟨1, 7⟩]⟩ 1 false).db =
      { posts := [], metadata := [], tag_index := [], keyword_index := [],
        chronological_index := [], pending_posts := [(1, "b".data)],
        pending_metadata := [(1,
          { title := [], created_at := 3, last_updated_at := none,
            summary := [], tags := [], cover_image := none,
            has_call_to_action := none, search_keywords := none })] } ∧
    ∀ row ∈ (approve_post
        { posts := [], metadata := [], tag_index := [], keyword_index := [],
          chronological_index := [], pending_posts := [(1, "b".data)],
          pending_metadata := [(1,
            { title := [], created_at := 3, last_updated_at := none,
              summary := [], tags := [], cover_image := none,
              has_call_to_action := none, search_keywords := none })] }
        ⟨[], [⟨1, 7⟩]⟩ 1 false).sql.post_ownership, row.post_id ≠ 1 :=
  C2_approve_rollback_on_redb_failure _ _ 1 "b".data
    { title := [], created_at := 3, last_updated_at := none, summary := [],
      tags := [], cover_image := none, has_call_to_action := none,
      search_keywords := none } 7 (by decide) (by decide) rfl

/-- Claim C10: approve is atomic on a missing pending post — when the id
is absent from the pending posts table or the pending metadata table,
`approve_post` returns a NotFound error and mutates neither store,
because both pending reads complete before the first write. -/
theorem C10_approve_missing_pending_no_mutation (db : RedbState)
    (sql : SqlState) (pid : PostId) (b : Bool)
    (h : kvGet pid db.pending_posts = none ∨
      kvGet pid db.pending_metadata = none) :
    (∃ msg, (approve_post db sql pid b).err = some (.NotFound msg)) ∧
    (approve_post db sql pid b).db = db ∧
    (approve_post db sql pid b).sql = sql := by
  rcases h with h | h
  · unfold approve_post
    rw [h]
    exact ⟨⟨_, rfl⟩, rfl, rfl⟩
  · cases hc : kvGet pid db.pending_posts with
    | none =>
      unfold approve_post
      rw [hc]
      exact ⟨⟨_, rfl⟩, rfl, rfl⟩
    | some content =>
      unfold approve_post
      rw [hc, h]
      exact ⟨⟨_, rfl⟩, rfl, rfl⟩

/-- Witness for C10 on the empty stores. -/
theorem C10_approve_missing_pending_no_mutation_witness :
    (∃ msg, (approve_post ⟨[], [], [], [], [], [], []⟩ ⟨[], []⟩ 1 true).err =
      some (.NotFound msg)) ∧
    (approve_post ⟨[], [], [], [], [], [], []⟩ ⟨[], []⟩ 1 true).db =
      ⟨[], [], [], [], [], [], []⟩ ∧
    (approve_post ⟨[], [], [], [], [], [], []⟩ ⟨[], []⟩ 1 true).sql =
      ⟨[], []⟩ :=
  C10_approve_missing_pending_no_mutation ⟨[], [], [], [], [], [], []⟩
    ⟨[], []⟩ 1 true (Or.inl (by decide))

/-- Claim C1 (refuted, code bug): `move_published_to_pending` moves
content and metadata into the pending tables in one transaction, but —
contrary to the claim and to the code's own comment that "a full
implementation must remove from all indices" — its tag-index,
keyword-index and chronological-index entries remain after Ok. -/
theorem C1_move_leaves_stale_index_entries :
    ∃ db1, move_published_to_pending
        { posts := [(1, "body".data)]
          metadata := [(1,
            { title := "t".data, created_at := 5, last_updated_at := none,
              summary := [], tags := ["t".data], cover_image := none,
              has_call_to_action := none, search_keywords := some [] })]
          tag_index := [("t".data, -5, 1)]
          keyword_index := []
          chronological_index := [(-5, 1)]
          pending_posts := []
          pending_metadata := [] } 1 = .ok db1 ∧
      ("t".data, (-5 : Int), (1 : PostId)) ∈ db1.tag_index ∧
      ((-5 : Int), (1 : PostId)) ∈ db1.chronological_index ∧
      kvGet 1 db1.posts = none ∧ kvGet 1 db1.metadata = none ∧
      kvGet 1 db1.pending_posts = some "body".data := by
  refine ⟨_, rfl, ?_, ?_, ?_, ?_, ?_⟩ <;> decide

theorem append_to_edit_log_frame (sql : SqlState) (pid : PostId)
    (editor : RStr) (now : Int) (sql1 : SqlState)
    (h : append_to_edit_log sql pid editor now = .ok sql1) :
    sql1.post_ownership.map (fun r => (r.post_id, r.user_id)) =
      sql.post_ownership.map (fun r => (r.post_id, r.user_id)) ∧
    sql1.pending_post_ownership = sql.pending_post_ownership := by
  unfold append_to_edit_log at h
  cases hown : find_post_ownership sql pid with
  | none =>
    rw [hown] at h
    exact absurd h (by simp)
  | some row =>
    rw [hown] at h
    simp only [Except.ok.injEq] at h
    subst h
    constructor
    · rw [List.map_map]
      apply List.map_congr_left
      intro r _
      by_cases hr : r.post_id = pid <;> simp [hr]
    · rfl

/-- Claim C9: for every published post with an ownership row, performing
re-submit-for-edit and then delete-pending on its id succeeds and leaves
the original `post_ownership` row in place (same post id and user id for
every row; only the edit log is rewritten): re-submission never deletes
ownership, and delete-pending removes only the pending content, pending
metadata and `pending_post_ownership` rows. -/
theorem C9_resubmit_then_delete_pending_keeps_ownership (db : RedbState)
    (sql : SqlState) (editor : Contributor) (pid : PostId) (content : RStr)
    (meta : PostMetadata) (row : OwnershipRow)
    (title summary newc tags kws : RStr) (cov : Option RStr)
    (cta : Option Bool) (now : Int)
    (hpub : kvGet pid db.posts = some content)
    (hmeta : kvGet pid db.metadata = some meta)
    (hown : find_post_ownership sql pid = some row) :
    ∃ r1 r2 : OpResult,
      re_submit_for_approval db sql editor pid title summary newc tags kws
        cov cta now = r1 ∧
      contributor_delete_pending_post r1.db r1.sql pid = r2 ∧
      r1.err = none ∧ r2.err = none ∧
      r2.sql.post_ownership.map (fun r => (r.post_id, r.user_id)) =
        sql.post_ownership.map (fun r => (r.post_id, r.user_id)) ∧
      kvGet pid r2.db.pending_posts = none ∧
      kvGet pid r2.db.pending_metadata = none ∧
      r2.sql.pending_post_ownership =
        sql.pending_post_ownership.filter (fun r => r.post_id ≠ pid) := by
  obtain ⟨sql1, h1⟩ : ∃ sql1,
      append_to_edit_log sql pid editor.username now = .ok sql1 := by
    unfold append_to_edit_log
    rw [hown]
    exact ⟨_, rfl⟩
  obtain ⟨hproj, hpend⟩ := append_to_edit_log_frame sql pid
    editor.username now sql1 h1
  have h2 : move_published_to_pending db pid = .ok
      { db with
        pending_posts := kvInsert pid content db.pending_posts
        pending_metadata := kvInsert pid meta db.pending_metadata
        posts := kvRemove pid db.posts
        metadata := kvRemove pid db.metadata } := by
    unfold move_published_to_pending
    rw [hpub, hmeta]
  obtain ⟨db2, h3⟩ : ∃ db2,
      update_pending_post
        { db with
          pending_posts := kvInsert pid content db.pending_posts
          pending_metadata := kvInsert pid meta db.pending_metadata
          posts := kvRemove pid db.posts
          metadata := kvRemove pid db.metadata } pid title summary newc
        tags kws cov cta now = .ok db2 := by
    unfold update_pending_post
    rw [show kvGet pid (kvInsert pid meta db.pending_metadata) = some meta
      from kvGet_kvInsert_self pid meta db.pending_metadata]
    exact ⟨_, rfl⟩
  have hr1 : re_submit_for_approval db sql editor pid title summary newc
      tags kws cov cta now = ⟨none, db2, sql1⟩ := by
    unfold re_submit_for_approval
    simp only [h1, h2, h3]
  refine ⟨⟨none, db2, sql1⟩, _, hr1, rfl, rfl, rfl, ?_, ?_, ?_, ?_⟩
  · simpa [contributor_delete_pending_post, delete_pending_post_ownership]
      using hproj
  · simpa [contributor_delete_pending_post, delete_pending_post]
      using kvGet_kvRemove_self pid db2.pending_posts
  · simpa [contributor_delete_pending_post, delete_pending_post]
      using kvGet_kvRemove_self pid db2.pending_metadata
  · simp only [contributor_delete_pending_post,
      delete_pending_post_ownership]
    rw [hpend]

/-- Witness for C9 at the concrete one-post state. -/
theorem C9_resubmit_then_delete_pending_keeps_ownership_witness :
    ∃ r1 r2 : OpResult,
      re_submit_for_approval C9db C9sql C9editor 1 [] [] [] [] [] none
        none 5 = r1 ∧
      contributor_delete_pending_post r1.db r1.sql 1 = r2 ∧
      r1.err = none ∧ r2.err = none ∧
      r2.sql.post_ownership.map (fun r => (r.post_id, r.user_id)) =
        C9sql.post_ownership.map (fun r => (r.post_id, r.user_id)) ∧
      kvGet 1 r2.db.pending_posts = none ∧
      kvGet 1 r2.db.pending_metadata = none ∧
      r2.sql.pending_post_ownership =
        C9sql.pending_post_ownership.filter (fun r => r.post_id ≠ 1) :=
  C9_resubmit_then_delete_pending_keeps_ownership C9db C9sql C9editor 1
    "x".data C9meta ⟨1, 7, none⟩ [] [] [] [] [] none none 5 (by decide)
    (by decide) (by decide)

theorem update_post_tag_invariant (db : RedbState) (pid : PostId)
    (meta0 : PostMetadata) (title summary content T kws : RStr)
    (cov : Option RStr) (cta : Option Bool) (now : Int)
    (hmeta : kvGet pid db.metadata = some meta0)
    (hinv1 : ∀ e ∈ db.tag_index, e.2.2 = pid →
      e.1 ∈ generate_all_tags (join_comma_space meta0.tags) ∧
      e.2.1 = -meta0.created_at) :
    ∃ db', update_post db pid title summary content T kws cov cta now =
        .ok db' ∧
      kvGet pid db'.metadata = some
        { title := title, created_at := meta0.created_at,
          last_updated_at := some now, summary := summary,
          tags := display_tokens T, cover_image := cov,
          has_call_to_action := cta,
          search_keywords := some (display_tokens kws) } ∧
      (∀ e ∈ db'.tag_index, e.2.2 = pid →
        e.1 ∈ generate_all_tags T ∧ e.2.1 = -meta0.created_at) ∧
      (∀ g ∈ generate_all_tags T,
        (g, -meta0.created_at, pid) ∈ db'.tag_index) ∧
      (db.tag_index.Nodup → db'.tag_index.Nodup) := by
  have hup : update_post db pid title summary content T kws cov cta now =
      .ok { db with
        posts := kvInsert pid content db.posts
        metadata := kvInsert pid
          { title := title, created_at := meta0.created_at,
            last_updated_at := some now, summary := summary,
            tags := display_tokens T, cover_image := cov,
            has_call_to_action := cta,
            search_keywords := some (display_tokens kws) } db.metadata
        tag_index := idx_insert_all
          ((generate_all_tags T).map
            (fun t => (t, -meta0.created_at, pid)))
          (idx_remove_all
            ((generate_all_tags (join_comma_space meta0.tags)).map
              (fun t => (t, -meta0.created_at, pid)))
            db.tag_index)
        keyword_index :=
          idx_insert_all
            ((process_keywords kws).map
              (fun k => (k, -meta0.created_at, pid)))
            (match meta0.search_keywords with
              | some old_keywords =>
                idx_remove_all
                  ((process_keywords (join_comma_space old_keywords)).map
                    (fun k => (k, -meta0.created_at, pid)))
                  db.keyword_index
              | none => db.keyword_index) } := by
    unfold update_post
    rw [hmeta]
  refine ⟨_, hup, kvGet_kvInsert_self .., ?_, ?_, ?_⟩
  · intro e he hepid
    rw [mem_idx_insert_all] at he
    rcases he with he | he
    · rw [mem_idx_remove_all] at he
      obtain ⟨hmem, hnot⟩ := he
      obtain ⟨a, b, c⟩ := e
      obtain ⟨hga, hb⟩ := hinv1 (a, b, c) hmem hepid
      simp only at hga hb hepid
      refine absurd (List.mem_map.mpr ⟨a, hga, ?_⟩) hnot
      rw [hb, hepid]
    · rw [List.mem_map] at he
      obtain ⟨g, hg, hge⟩ := he
      rw [← hge]
      exact ⟨hg, rfl⟩
  · intro g hg
    rw [mem_idx_insert_all]
    exact Or.inr (List.mem_map.mpr ⟨g, hg, rfl⟩)
  · intro hnd
    exact nodup_idx_insert_all _ _ (nodup_idx_remove_all _ _ hnd)

theorem length_filter_eq_one_of_nodup_mem [DecidableEq α] {l : List α}
    {a : α} (hnd : l.Nodup) (ha : a ∈ l) :
    (l.filter (fun e => e = a)).length = 1 := by
  induction l with
  | nil => cases ha
  | cons x xs ih =>
    obtain ⟨hx, hnd2⟩ := List.nodup_cons.mp hnd
    rcases List.mem_cons.mp ha with rfl | hmem
    · have hnil : xs.filter (fun e => e = a) = [] := by
        rw [List.filter_eq_nil_iff]
        intro e he hea
        exact hx ((of_decide_eq_true hea) ▸ he)
      simp [List.filter_cons, hnil]
    · have hxa : ¬ x = a := fun h => hx (h ▸ hmem)
      simp [List.filter_cons, hxa, ih hnd2 hmem]

/-- Claim C3: round-trip of published-post updates through the tag
index — for every published post whose tag-index entries are the ones
derived from its stored metadata, updating it with tag string `T1` and
then with tag string `T2` leaves the tag index containing, for that post
id, exactly one entry per element of `generate_all_tags T2` and no entry
derived only from `T1`, because each update removes the full old entry
set (computed from the stored previous metadata) before inserting the
full new set. -/
theorem C3_update_tag_index_roundtrip (db : RedbState) (pid : PostId)
    (meta0 : PostMetadata) (t1 s1 c1 T1 k1 t2 s2 c2 T2 k2 : RStr)
    (cov1 cov2 : Option RStr) (cta1 cta2 : Option Bool) (now1 now2 : Int)
    (hmeta : kvGet pid db.metadata = some meta0)
    (hinv : ∀ e ∈ db.tag_index, e.2.2 = pid →
      e.1 ∈ generate_all_tags (join_comma_space meta0.tags) ∧
      e.2.1 = -meta0.created_at)
    (hnd : db.tag_index.Nodup) :
    ∃ db1 db2,
      update_post db pid t1 s1 c1 T1 k1 cov1 cta1 now1 = .ok db1 ∧
      update_post db1 pid t2 s2 c2 T2 k2 cov2 cta2 now2 = .ok db2 ∧
      (∀ e ∈ db2.tag_index, e.2.2 = pid →
        e.1 ∈ generate_all_tags T2 ∧ e.2.1 = -meta0.created_at) ∧
      (∀ g ∈ generate_all_tags T2,
        (db2.tag_index.filter
          (fun e => e = (g, -meta0.created_at, pid))).length = 1) := by
  obtain ⟨db1, h1, hm1, hf1, hb1, hn1⟩ :=
    update_post_tag_invariant db pid meta0 t1 s1 c1 T1 k1 cov1 cta1 now1
      hmeta hinv
  have hinv1 : ∀ e ∈ db1.tag_index, e.2.2 = pid →
      e.1 ∈ generate_all_tags (join_comma_space (display_tokens T1)) ∧
      e.2.1 = -meta0.created_at := by
    intro e he hp
    rw [generate_all_tags_join_display]
    exact hf1 e he hp
  obtain ⟨db2, h2, hm2, hf2, hb2, hn2⟩ :=
    update_post_tag_invariant db1 pid
      { title := t1, created_at := meta0.created_at,
        last_updated_at := some now1, summary := s1,
        tags := display_tokens T1, cover_image := cov1,
        has_call_to_action := cta1,
        search_keywords := some (display_tokens k1) }
      t2 s2 c2 T2 k2 cov2 cta2 now2 hm1 hinv1
  refine ⟨db1, db2, h1, h2, hf2, ?_⟩
  intro g hg
  exact length_filter_eq_one_of_nodup_mem (hn2 (hn1 hnd)) (hb2 g hg)

/-- Witness for C3: update post 1 with tags `"a/b"`, then `"b"`. -/
theorem C3_update_tag_index_roundtrip_witness :
    ∃ db1 db2,
      update_post C3db 1 [] [] [] "a/b".data [] none none 10 = .ok db1 ∧
      update_post db1 1 [] [] [] "b".data [] none none 11 = .ok db2 ∧
      (∀ e ∈ db2.tag_index, e.2.2 = 1 →
        e.1 ∈ generate_all_tags "b".data ∧ e.2.1 = -C3meta.created_at) ∧
      (∀ g ∈ generate_all_tags "b".data,
        (db2.tag_index.filter
          (fun e => e = (g, -C3meta.created_at, 1))).length = 1) :=
  C3_update_tag_index_roundtrip C3db 1 C3meta [] [] [] "a/b".data []
    [] [] [] "b".data [] none none none none 10 11 (by decide) (by decide)
    (by decide)

theorem kvGet_cons_self (k : PostId) (v : α) (l : List (PostId × α)) :
    kvGet k ((k, v) :: l) = some v := by
  simp [kvGet, List.find?_cons]

theorem kvGet_cons_ne (k k' : PostId) (v : α) (l : List (PostId × α))
    (h : ¬ k' = k) : kvGet k' ((k, v) :: l) = kvGet k' l := by
  have hd : (decide ((k, v).1 = k')) = false :=
    decide_eq_false (fun hh => h hh.symm)
  simp [kvGet, List.find?_cons, hd]

theorem insert_or_ignore_pending_frame (sql : SqlState) (pid : PostId)
    (uid : Int) :
    (insert_or_ignore_post_ownership sql pid uid).pending_post_ownership =
      sql.pending_post_ownership := by
  unfold insert_or_ignore_post_ownership
  split <;> rfl

theorem approve_post_ok (db : RedbState) (sql : SqlState) (pid : PostId)
    (content : RStr) (metadata : PostMetadata) (author : Int)
    (hc : kvGet pid db.pending_posts = some content)
    (hm : kvGet pid db.pending_metadata = some metadata)
    (ho : get_pending_post_owner_id sql pid = .ok author) :
    approve_post db sql pid true =
      ⟨none,
        delete_pending_post (approve_redb_write db pid content metadata) pid,
        delete_pending_post_ownership
          (insert_or_ignore_post_ownership sql pid author) pid⟩ := by
  unfold approve_post
  rw [hc, hm, ho]
  rfl

/-- Claim C8: chronological index entries are keyed by the negated
creation timestamp so ascending key order is descending chronological
order — approving three pending posts with creation times `t1 < t2 < t3`
into empty published tables and then reading the latest summaries with
`limit = 2, offset = 0` returns exactly the `t3` post followed by the
`t2` post. -/
theorem C8_read_latest_returns_newest_first (p1 p2 p3 : PostId)
    (u1 u2 u3 : Int) (c1 c2 c3 : RStr) (m1 m2 m3 : PostMetadata)
    (t1 t2 t3 : Int) (h12 : p1 ≠ p2) (h13 : p1 ≠ p3) (h23 : p2 ≠ p3)
    (hm1 : m1.created_at = t1) (hm2 : m2.created_at = t2)
    (hm3 : m3.created_at = t3) (ht12 : t1 < t2) (ht23 : t2 < t3) :
    ∃ r1 r2 r3 : OpResult,
      approve_post
        { posts := [], metadata := [], tag_index := [],
          keyword_index := [], chronological_index := [],
          pending_posts := [(p1, c1), (p2, c2), (p3, c3)],
          pending_metadata := [(p1, m1), (p2, m2), (p3, m3)] }
        ⟨[], [⟨p1, u1⟩, ⟨p2, u2⟩, ⟨p3, u3⟩]⟩ p1 true = r1 ∧
      approve_post r1.db r1.sql p2 true = r2 ∧
      approve_post r2.db r2.sql p3 true = r3 ∧
      r1.err = none ∧ r2.err = none ∧ r3.err = none ∧
      read_latest_post_summaries r3.db 2 0 = [⟨p3, m3⟩, ⟨p2, m2⟩] := by
  have h21 : ¬ p2 = p1 := fun h => h12 h.symm
  have h31 : ¬ p3 = p1 := fun h => h13 h.symm
  have h32 : ¬ p3 = p2 := fun h => h23 h.symm
  set db0 : RedbState :=
    { posts := [], metadata := [], tag_index := [], keyword_index := [],
      chronological_index := [],
      pending_posts := [(p1, c1), (p2, c2), (p3, c3)],
      pending_metadata := [(p1, m1), (p2, m2), (p3, m3)] } with hdb0
  set sql0 : SqlState := ⟨[], [⟨p1, u1⟩, ⟨p2, u2⟩, ⟨p3, u3⟩]⟩ with hsql0
  have hdb0pp : db0.pending_posts = [(p1, c1), (p2, c2), (p3, c3)] := by
    rw [hdb0]
  have hdb0pm : db0.pending_metadata = [(p1, m1), (p2, m2), (p3, m3)] := by
    rw [hdb0]
  have hdb0md : db0.metadata = [] := by rw [hdb0]
  have hdb0ch : db0.chronological_index = [] := by rw [hdb0]
  have hsql0pd : sql0.pending_post_ownership =
      [⟨p1, u1⟩, ⟨p2, u2⟩, ⟨p3, u3⟩] := by rw [hsql0]
  -- step 1
  have hcA : kvGet p1 db0.pending_posts = some c1 := by
    rw [hdb0pp]
    exact kvGet_cons_self p1 c1 _
  have hmA : kvGet p1 db0.pending_metadata = some m1 := by
    rw [hdb0pm]
    exact kvGet_cons_self p1 m1 _
  have hoA : get_pending_post_owner_id sql0 p1 = .ok u1 := by
    unfold get_pending_post_owner_id find_pending_post_ownership
    rw [hsql0pd]
    simp [List.find?_cons]
  set db1 : RedbState :=
    delete_pending_post (approve_redb_write db0 p1 c1 m1) p1 with hdb1
  set sql1 : SqlState :=
    delete_pending_post_ownership
      (insert_or_ignore_post_ownership sql0 p1 u1) p1 with hsql1
  have hr1 : approve_post db0 sql0 p1 true = ⟨none, db1, sql1⟩ :=
    approve_post_ok db0 sql0 p1 c1 m1 u1 hcA hmA hoA
  have hpp1 : db1.pending_posts = kvRemove p1 db0.pending_posts := by
    rw [hdb1]
    rfl
  have hpm1 : db1.pending_metadata = kvRemove p1 db0.pending_metadata := by
    rw [hdb1]
    rfl
  have hmd1 : db1.metadata = kvInsert p1 m1 db0.metadata := by
    rw [hdb1]
    rfl
  have hch1 : db1.chronological_index = [(-t1, p1)] := by
    rw [hdb1]
    show chrono_insert (-m1.created_at, p1) db0.chronological_index = _
    rw [hdb0ch, hm1]
    rfl
  have hspd1 : sql1.pending_post_ownership =
      sql0.pending_post_ownership.filter (fun r => r.post_id ≠ p1) := by
    rw [hsql1]
    show (insert_or_ignore_post_ownership sql0 p1
        u1).pending_post_ownership.filter (fun r => r.post_id ≠ p1) = _
    rw [insert_or_ignore_pending_frame]
  -- step 2
  have hcB : kvGet p2 db1.pending_posts = some c2 := by
    rw [hpp1, kvGet_kvRemove_ne p1 p2 _ h21, hdb0pp,
      kvGet_cons_ne p1 p2 c1 _ h21]
    exact kvGet_cons_self p2 c2 _
  have hmB : kvGet p2 db1.pending_metadata = some m2 := by
    rw [hpm1, kvGet_kvRemove_ne p1 p2 _ h21, hdb0pm,
      kvGet_cons_ne p1 p2 m1 _ h21]
    exact kvGet_cons_self p2 m2 _
  have himp1 : ∀ x : PendingOwnershipRow,
      (decide (x.post_id = p2)) = true →
      (decide (x.post_id ≠ p1)) = true := by
    intro x hx
    simp only [decide_eq_true_eq] at hx ⊢
    rw [hx]
    exact h21
  have hoB : get_pending_post_owner_id sql1 p2 = .ok u2 := by
    unfold get_pending_post_owner_id find_pending_post_ownership
    rw [hspd1, find?_filter_comm _ _ _ himp1, hsql0pd]
    simp [List.find?_cons, h12]
  set db2 : RedbState :=
    delete_pending_post (approve_redb_write db1 p2 c2 m2) p2 with hdb2
  set sql2 : SqlState :=
    delete_pending_post_ownership
      (insert_or_ignore_post_ownership sql1 p2 u2) p2 with hsql2
  have hr2 : approve_post db1 sql1 p2 true = ⟨none, db2, sql2⟩ :=
    approve_post_ok db1 sql1 p2 c2 m2 u2 hcB hmB hoB
  have hpp2 : db2.pending_posts = kvRemove p2 db1.pending_posts := by
    rw [hdb2]
    rfl
  have hpm2 : db2.pending_metadata = kvRemove p2 db1.pending_metadata := by
    rw [hdb2]
    rfl
  have hmd2 : db2.metadata = kvInsert p2 m2 db1.metadata := by
    rw [hdb2]
    rfl
  have hch2 : db2.chronological_index = [(-t2, p2), (-t1, p1)] := by
    rw [hdb2]
    show chrono_insert (-m2.created_at, p2) db1.chronological_index = _
    rw [hch1, hm2]
    have hlt : chrono_key_lt (-t2, p2) (-t1, p1) := by
      unfold chrono_key_lt
      left
      omega
    unfold chrono_insert
    rw [if_pos hlt]
  have hspd2 : sql2.pending_post_ownership =
      sql1.pending_post_ownership.filter (fun r => r.post_id ≠ p2) := by
    rw [hsql2]
    show (insert_or_ignore_post_ownership sql1 p2
        u2).pending_post_ownership.filter (fun r => r.post_id ≠ p2) = _
    rw [insert_or_ignore_pending_frame]
  -- step 3
  have hcC : kvGet p3 db2.pending_posts = some c3 := by
    rw [hpp2, kvGet_kvRemove_ne p2 p3 _ h32, hpp1,
      kvGet_kvRemove_ne p1 p3 _ h31, hdb0pp,
      kvGet_cons_ne p1 p3 c1 _ h31, kvGet_cons_ne p2 p3 c2 _ h32]
    exact kvGet_cons_self p3 c3 _
  have hmC : kvGet p3 db2.pending_metadata = some m3 := by
    rw [hpm2, kvGet_kvRemove_ne p2 p3 _ h32, hpm1,
      kvGet_kvRemove_ne p1 p3 _ h31, hdb0pm,
      kvGet_cons_ne p1 p3 m1 _ h31, kvGet_cons_ne p2 p3 m2 _ h32]
    exact kvGet_cons_self p3 m3 _
  have himp2 : ∀ x : PendingOwnershipRow,
      (decide (x.post_id = p3)) = true →
      (decide (x.post_id ≠ p2)) = true := by
    intro x hx
    simp only [decide_eq_true_eq] at hx ⊢
    rw [hx]
    exact h32
  have himp3 : ∀ x : PendingOwnershipRow,
      (decide (x.post_id = p3)) = true →
      (decide (x.post_id ≠ p1)) = true := by
    intro x hx
    simp only [decide_eq_true_eq] at hx ⊢
    rw [hx]
    exact h31
  have hoC : get_pending_post_owner_id sql2 p3 = .ok u3 := by
    unfold get_pending_post_owner_id find_pending_post_ownership
    rw [hspd2, find?_filter_comm _ _ _ himp2, hspd1,
      find?_filter_comm _ _ _ himp3, hsql0pd]
    simp [List.find?_cons, h13, h23]
  set db3 : RedbState :=
    delete_pending_post (approve_redb_write db2 p3 c3 m3) p3 with hdb3
  set sql3 : SqlState :=
    delete_pending_post_ownership
      (insert_or_ignore_post_ownership sql2 p3 u3) p3 with hsql3
  have hr3 : approve_post db2 sql2 p3 true = ⟨none, db3, sql3⟩ :=
    approve_post_ok db2 sql2 p3 c3 m3 u3 hcC hmC hoC
  have hmd3 : db3.metadata = kvInsert p3 m3 db2.metadata := by
    rw [hdb3]
    rfl
  have hch3 : db3.chronological_index =
      [(-t3, p3), (-t2, p2), (-t1, p1)] := by
    rw [hdb3]
    show chrono_insert (-m3.created_at, p3) db2.chronological_index = _
    rw [hch2, hm3]
    have hlt : chrono_key_lt (-t3, p3) (-t2, p2) := by
      unfold chrono_key_lt
      left
      omega
    unfold chrono_insert
    rw [if_pos hlt]
  have hg3 : kvGet p3 db3.metadata = some m3 := by
    rw [hmd3]
    exact kvGet_kvInsert_self p3 m3 _
  have hg2 : kvGet p2 db3.metadata = some m2 := by
    rw [hmd3, kvGet_kvInsert_ne p3 p2 m3 _ h23, hmd2]
    exact kvGet_kvInsert_self p2 m2 _
  refine ⟨⟨none, db1, sql1⟩, ⟨none, db2, sql2⟩, ⟨none, db3, sql3⟩, hr1,
    hr2, hr3, rfl, rfl, rfl, ?_⟩
  show read_latest_post_summaries db3 2 0 = _
  unfold read_latest_post_summaries
  rw [hch3]
  show List.filterMap
    (fun key => (kvGet key.2 db3.metadata).map
      (fun m => ⟨key.2, m⟩ : PostMetadata → PostSummary))
    [(-t3, p3), (-t2, p2)] = _
  simp only [List.filterMap_cons, List.filterMap_nil, hg3, hg2,
    Option.map_some']

/-- Witness for C8 with posts 1, 2, 3 created at times 1 < 2 < 3. -/
theorem C8_read_latest_returns_newest_first_witness :
    ∃ r1 r2 r3 : OpResult,
      approve_post
        { posts := [], metadata := [], tag_index := [],
          keyword_index := [], chronological_index := [],
          pending_posts := [(1, "a".data), (2, "b".data), (3, "c".data)],
          pending_metadata :=
            [(1, C8meta 1), (2, C8meta 2), (3, C8meta 3)] }
        ⟨[], [⟨1, 7⟩, ⟨2, 8⟩, ⟨3, 9⟩]⟩ 1 true = r1 ∧
      approve_post r1.db r1.sql 2 true = r2 ∧
      approve_post r2.db r2.sql 3 true = r3 ∧
      r1.err = none ∧ r2.err = none ∧ r3.err = none ∧
      read_latest_post_summaries r3.db 2 0 =
        [⟨3, C8meta 3⟩, ⟨2, C8meta 2⟩] :=
  C8_read_latest_returns_newest_first 1 2 3 7 8 9 "a".data "b".data
    "c".data (C8meta 1) (C8meta 2) (C8meta 3) 1 2 3 (by decide) (by decide)
    (by decide) rfl rfl rfl (by decide) (by decide)
